import Mathlib

/-!
Verification of `src/source.rs` (the `Source` element of the rss crate)
against its specification.

The Rust code is shallowly embedded: the `Source` struct becomes a Lean
structure, `from_xml` / `to_xml` become pure functions over an explicit
stream-of-events model of the XML reader and writer, and the fallible
paths return `Except`.  The parts of the protocol that live outside the
shown file — the `element_text` utility and the reader/writer entity
escaping boundary — are modelled from the specification (each such
definition says so in its doc comment).
-/

namespace Rss

/-- Structural-parse errors surfaced by the underlying XML machinery:
end of stream in the middle of an element, an undecodable entity
reference, or any other well-formedness error of the byte stream
(carried opaquely as a code). -/
inductive ParseErr where
  | unexpectedEof
  | badEntity
  | xml (code : Nat)
deriving DecidableEq

/-- One attribute as captured on a start tag, before any decoding: either
a well-formed `key="raw value"` pair (the value still entity-escaped), or
a malformed attribute, which the iterator with checks disabled reports as
an `Err` item that `from_xml` skips. -/
inductive RawAttr where
  | ok (key : String) (value : String)
  | malformed
deriving DecidableEq

/-- One event pulled from the streamed document, positioned after the
entity's start tag: a nested start tag, an end tag, a text node (raw,
still entity-escaped), or a point at which the underlying reader reports
a structural-parse error.  End of stream is the end of the list. -/
inductive Event where
  | start (name : String) (atts : List RawAttr)
  | endTag (name : String)
  | text (raw : String)
  | bad (e : ParseErr)
deriving DecidableEq

/-- Modelled from the spec: the writer's character-escaping of reserved
XML characters (`<`, `&`, etc.) for one character. -/
def escChar (c : Char) : List Char :=
  if c = '&' then ['&', 'a', 'm', 'p', ';']
  else if c = '<' then ['&', 'l', 't', ';']
  else if c = '>' then ['&', 'g', 't', ';']
  else if c = '\'' then ['&', 'a', 'p', 'o', 's', ';']
  else if c = '"' then ['&', 'q', 'u', 'o', 't', ';']
  else [c]

/-- Escaping, character by character. -/
def escapeList : List Char → List Char
  | [] => []
  | c :: rest => escChar c ++ escapeList rest

/-- Modelled from the spec: the writer escapes reserved XML characters so
its output is always well-formed. -/
def escapeStr (s : String) : String := ⟨escapeList s.data⟩

/-- Value of a decimal digit character. -/
def decDigit (c : Char) : Option Nat :=
  if '0' ≤ c ∧ c ≤ '9' then some (c.toNat - '0'.toNat) else none

/-- Value of a hexadecimal digit character. -/
def hexDigit (c : Char) : Option Nat :=
  if '0' ≤ c ∧ c ≤ '9' then some (c.toNat - '0'.toNat)
  else if 'a' ≤ c ∧ c ≤ 'f' then some (c.toNat - 'a'.toNat + 10)
  else if 'A' ≤ c ∧ c ≤ 'F' then some (c.toNat - 'A'.toNat + 10)
  else none

/-- Accumulate a digit string in the given base; fails on an empty digit
string or a non-digit. -/
def digitsVal (f : Char → Option Nat) (base : Nat) (ds : List Char) : Option Nat :=
  if ds.isEmpty then none
  else ds.foldl
    (fun acc c =>
      match acc, f c with
      | some n, some d => some (n * base + d)
      | _, _ => none)
    (some 0)

/-- A numeric character reference is valid only for a unicode scalar value. -/
def charOfCode (n : Nat) : Option Char :=
  if h : n < 0xd800 ∨ (0xdfff < n ∧ n < 0x110000) then
    some ⟨⟨n, by rcases h with h | ⟨_, h2⟩ <;> omega⟩, by
      rcases h with h | ⟨h1, h2⟩
      · exact Or.inl h
      · exact Or.inr ⟨by exact_mod_cast h1, by exact_mod_cast h2⟩⟩
  else none

/-- Modelled from the spec: resolution of one standard XML character or
numeric entity, given the text between `&` and `;`. -/
def entityValue (name : List Char) : Option Char :=
  match name with
  | ['l', 't'] => some '<'
  | ['g', 't'] => some '>'
  | ['a', 'm', 'p'] => some '&'
  | ['a', 'p', 'o', 's'] => some '\''
  | ['q', 'u', 'o', 't'] => some '"'
  | '#' :: 'x' :: ds => (digitsVal hexDigit 16 ds).bind charOfCode
  | '#' :: ds => (digitsVal decDigit 10 ds).bind charOfCode
  | _ => none

/-- Decoding state machine: `none` while reading plain characters, `some
acc` while accumulating an entity name after `&`.  An unterminated or
unknown entity makes the whole decode fail, as
`unescape_and_decode_value` does. -/
def unescAux : Option (List Char) → List Char → Option (List Char)
  | none, [] => some []
  | some _, [] => none
  | none, c :: rest =>
    if c = '&' then unescAux (some []) rest
    else (unescAux none rest).map (fun t => c :: t)
  | some acc, c :: rest =>
    if c = ';' then
      match entityValue acc with
      | some d => (unescAux none rest).map (fun t => d :: t)
      | none => none
    else unescAux (some (acc ++ [c])) rest

/-- Modelled from the spec: entity decoding of raw attribute values and
text content (`unescape_and_decode_value` / `unescape_and_decode` at the
quick-xml boundary). -/
def unescapeList (cs : List Char) : Option (List Char) := unescAux none cs

/-- String form of `unescapeList`. -/
def unescapeStr (s : String) : Option String := (unescapeList s.data).map (fun l => ⟨l⟩)

lemma unescAux_amp (tl : List Char) :
    unescAux none ('&' :: 'a' :: 'm' :: 'p' :: ';' :: tl)
      = (unescAux none tl).map (fun t => '&' :: t) := rfl

lemma unescAux_lt (tl : List Char) :
    unescAux none ('&' :: 'l' :: 't' :: ';' :: tl)
      = (unescAux none tl).map (fun t => '<' :: t) := rfl

lemma unescAux_gt (tl : List Char) :
    unescAux none ('&' :: 'g' :: 't' :: ';' :: tl)
      = (unescAux none tl).map (fun t => '>' :: t) := rfl

lemma unescAux_apos (tl : List Char) :
    unescAux none ('&' :: 'a' :: 'p' :: 'o' :: 's' :: ';' :: tl)
      = (unescAux none tl).map (fun t => '\'' :: t) := rfl

lemma unescAux_quot (tl : List Char) :
    unescAux none ('&' :: 'q' :: 'u' :: 'o' :: 't' :: ';' :: tl)
      = (unescAux none tl).map (fun t => '"' :: t) := rfl

lemma unescAux_plain (c : Char) (h : c ≠ '&') (tl : List Char) :
    unescAux none (c :: tl) = (unescAux none tl).map (fun t => c :: t) := by
  simp [unescAux, h]

/-- Decoding inverts escaping, character-list level. -/
lemma unescAux_escapeList (cs : List Char) : unescAux none (escapeList cs) = some cs := by
  induction cs with
  | nil => rfl
  | cons c rest ih =>
    show unescAux none (escChar c ++ escapeList rest) = some (c :: rest)
    by_cases h1 : c = '&'
    · subst h1; simp [escChar, unescAux_amp, ih]
    by_cases h2 : c = '<'
    · subst h2; simp [escChar, unescAux_lt, ih]
    by_cases h3 : c = '>'
    · subst h3; simp [escChar, h1, unescAux_gt, ih]
    by_cases h4 : c = '\''
    · subst h4; simp [escChar, unescAux_apos, ih]
    by_cases h5 : c = '"'
    · subst h5; simp [escChar, unescAux_quot, ih]
    · rw [show escChar c = [c] by simp [escChar, h1, h2, h3, h4, h5]]
      rw [List.cons_append, List.nil_append, unescAux_plain c h1, ih]
      rfl

/-- Decoding inverts escaping. -/
lemma unescape_escape (s : String) : unescapeStr (escapeStr s) = some s := by
  obtain ⟨d⟩ := s
  simp [unescapeStr, escapeStr, unescapeList, unescAux_escapeList]

/-- Escaped output never contains a raw `<` from one character. -/
lemma lt_not_mem_escChar (c : Char) : '<' ∉ escChar c := by
  unfold escChar
  split
  · decide
  · split
    · decide
    · split
      · decide
      · split
        · decide
        · split
          · decide
          · rename_i h1 h2 h3 h4 h5
            intro hmem
            rcases List.mem_singleton.mp hmem with rfl
            exact h2 rfl

/-- Escaped output never contains a raw `<`. -/
lemma lt_not_mem_escapeList (cs : List Char) : '<' ∉ escapeList cs := by
  induction cs with
  | nil => simp [escapeList]
  | cons c rest ih =>
    intro hmem
    rcases List.mem_append.mp hmem with h | h
    · exact lt_not_mem_escChar c h
    · exact ih h

/-- The `Source` struct of `src/source.rs`: the URL of the source and its
optional title.  The getters `url` and `title` are the projections. -/
structure Source where
  url : String
  title : Option String
deriving DecidableEq

/-- The `Default` derive: empty url, absent title. -/
def Source.default : Source := { url := "", title := none }

/-- `Source::set_url` (`src/source.rs` lines 58–63): always stores the
given string. -/
def Source.set_url (s : Source) (url : String) : Source := { s with url := url }

/-- `Source::set_title` (`src/source.rs` lines 90–95): stores the given
optional string, so `none` resets the title. -/
def Source.set_title (s : Source) (title : Option String) : Source := { s with title := title }

/-- Modelled from the spec: `util::element_text`, absent from `src/`.
Drains events to the matching end tag of the current element: depth-0
text nodes are decoded and concatenated; nested elements are drained
with their structure discarded; end of stream or an underlying reader
error mid-element is a structural-parse error.  State: depth, text
accumulated so far (`none` = no text seen). -/
def elementTextAux : Nat → Option String → List Event →
    Except ParseErr (Option String) × List Event
  | _, _, [] => (.error .unexpectedEof, [])
  | _, _, .bad e :: rest => (.error e, rest)
  | d, acc, .start _ _ :: rest => elementTextAux (d + 1) acc rest
  | 0, acc, .endTag _ :: rest => (.ok acc, rest)
  | d + 1, acc, .endTag _ :: rest => elementTextAux d acc rest
  | 0, acc, .text raw :: rest =>
    (match unescapeStr raw with
     | some t => elementTextAux 0 (some (acc.getD "" ++ t)) rest
     | none => (.error .badEntity, rest))
  | d + 1, acc, .text _ :: rest => elementTextAux (d + 1) acc rest

/-- Modelled from the spec: `util::element_text`, started just after the
entity's start tag.  Returns the optional text and the rest of the
stream (the cursor position) after the matching end tag. -/
def element_text (stream : List Event) : Except ParseErr (Option String) × List Event :=
  elementTextAux 0 none stream

/-- The attribute loop of `Source::from_xml` (`src/source.rs` lines
102–109): scan in document order, skip malformed items, and on the first
attribute whose key is `url` decode its value into the entity and stop
(`break`); a decode failure propagates (`?`). -/
def scanUrl (s : Source) : List RawAttr → Except ParseErr Source
  | [] => .ok s
  | .malformed :: rest => scanUrl s rest
  | .ok k v :: rest =>
    if k = "url" then
      match unescapeStr v with
      | some u => .ok { s with url := u }
      | none => .error .badEntity
    else scanUrl s rest

/-- `Source::from_xml` (`src/source.rs` lines 99–113): start from the
default entity, run the attribute loop, then take the element text as
the title; either error propagates and no entity is returned. -/
def Source.from_xml (atts : List RawAttr) (stream : List Event) :
    Except ParseErr Source × List Event :=
  match scanUrl Source.default atts with
  | .error e => (.error e, stream)
  | .ok s =>
    match element_text stream with
    | (.ok t, rest) => (.ok { s with title := t }, rest)
    | (.error e, rest) => (.error e, rest)

/-- `Source::to_xml` (`src/source.rs` lines 117–130): a start tag named
`source` carrying the `url` attribute, the title as a text node when
present, and an explicit end tag.  Escaping of the attribute value and
of the text is the writer boundary, modelled from the spec (round-trip
symmetry and well-formed output for arbitrary field values). -/
def Source.to_xml (s : Source) : List Event :=
  Event.start "source" [RawAttr.ok "url" (escapeStr s.url)] ::
    (match s.title with
     | some t => [Event.text (escapeStr t)]
     | none => []) ++ [Event.endTag "source"]

/-- Modelled from the spec: `attributes_of(write(e))` — the attribute
list captured from the start tag the writer produced. -/
def attributes_of : List Event → List RawAttr
  | Event.start _ atts :: _ => atts
  | _ => []

/-- Modelled from the spec: `stream_of(write(e))` — the produced stream
positioned just after the start tag, as handed to the Reader. -/
def stream_of : List Event → List Event
  | Event.start _ _ :: rest => rest
  | es => es

/-- Rendering of one attribute to its wire form. -/
def renderAttrs : List RawAttr → String
  | [] => ""
  | .ok k v :: rest => " " ++ k ++ "=\x22" ++ v ++ "\x22" ++ renderAttrs rest
  | .malformed :: rest => renderAttrs rest

/-- Modelled from the spec: the wire form of one event as the underlying
writer emits it (§6 wire format). -/
def renderEvent : Event → String
  | .start n atts => "<" ++ n ++ renderAttrs atts ++ ">"
  | .endTag n => "</" ++ n ++ ">"
  | .text raw => raw
  | .bad _ => ""

/-- Wire form of a whole event stream. -/
def render (es : List Event) : String := es.foldl (fun acc e => acc ++ renderEvent e) ""

/-- Whether an attribute item is a well-formed attribute named `url`. -/
def isUrlOk : RawAttr → Bool
  | .ok k _ => k = "url"
  | .malformed => false

/-- The raw value of the first well-formed `url` attribute, if any. -/
def firstUrlRaw : List RawAttr → Option String
  | [] => none
  | .ok k v :: rest => if k = "url" then some v else firstUrlRaw rest
  | .malformed :: rest => firstUrlRaw rest

/-- `closesElement c d = true` means `c` is exactly the remainder of an
element body open at depth `d + 1`: reading `c` keeps the depth
non-negative, hits no reader error, and its final event is the end tag
that closes the outermost open element. -/
def closesElement : List Event → Nat → Bool
  | [], _ => false
  | .bad _ :: _, _ => false
  | .start _ _ :: r, d => closesElement r (d + 1)
  | .endTag _ :: r, 0 => r.isEmpty
  | .endTag _ :: r, d + 1 => closesElement r d
  | .text _ :: r, d => closesElement r d

lemma str_empty_append (s : String) : "" ++ s = s := by
  obtain ⟨d⟩ := s; rfl

/-- Reading a decodable text node and then the end tag yields that text. -/
lemma element_text_single (raw t n : String) (rest : List Event)
    (h : unescapeStr raw = some t) :
    element_text (Event.text raw :: Event.endTag n :: rest) = (.ok (some t), rest) := by
  simp [element_text, elementTextAux, h, str_empty_append]

/-- Attributes that are malformed or not named `url` are skipped by the scan. -/
lemma scanUrl_append_no_url (s : Source) (pre l : List RawAttr)
    (h : pre.all (fun a => !(isUrlOk a)) = true) :
    scanUrl s (pre ++ l) = scanUrl s l := by
  induction pre with
  | nil => rfl
  | cons a rest ih =>
    simp only [List.all_cons, Bool.and_eq_true] at h
    cases a with
    | malformed =>
      show scanUrl s (rest ++ l) = _
      exact ih h.2
    | ok k v =>
      have hk : ¬ k = "url" := by simpa [isUrlOk] using h.1
      show scanUrl s (RawAttr.ok k v :: (rest ++ l)) = _
      simp only [scanUrl, if_neg hk]
      exact ih h.2

/-- A scan over a list with no `url` attribute leaves the entity unchanged. -/
lemma scanUrl_no_url (s : Source) (atts : List RawAttr)
    (h : atts.all (fun a => !(isUrlOk a)) = true) : scanUrl s atts = .ok s := by
  have := scanUrl_append_no_url s atts [] h
  rwa [List.append_nil] at this

/-- The attribute scan factors through the first well-formed `url`
attribute: nothing else in the list can influence it. -/
lemma scanUrl_eq_firstUrlRaw (s : Source) (atts : List RawAttr) :
    scanUrl s atts =
      (match firstUrlRaw atts with
       | none => .ok s
       | some v =>
         match unescapeStr v with
         | some u => .ok { s with url := u }
         | none => .error .badEntity) := by
  induction atts with
  | nil => rfl
  | cons a rest ih =>
    cases a with
    | malformed => simpa [scanUrl, firstUrlRaw] using ih
    | ok k v =>
      by_cases hk : k = "url"
      · subst hk; simp [scanUrl, firstUrlRaw]
      · simp only [scanUrl, firstUrlRaw, if_neg hk]
        exact ih

/-- When the drain succeeds, the consumed prefix is exactly the remainder
of one element open at the given depth. -/
lemma elementTextAux_consumes :
    ∀ (stream : List Event) (d : Nat) (acc t : Option String) (rest : List Event),
      elementTextAux d acc stream = (.ok t, rest) →
      ∃ c, stream = c ++ rest ∧ closesElement c d = true := by
  intro stream
  induction stream with
  | nil =>
    intro d acc t rest h
    simp [elementTextAux] at h
  | cons e es ih =>
    intro d acc t rest h
    cases e with
    | bad pe => simp [elementTextAux] at h
    | start n a =>
      simp only [elementTextAux] at h
      obtain ⟨c, hc, hclose⟩ := ih (d + 1) acc t rest h
      exact ⟨Event.start n a :: c, by simp [hc], by simpa [closesElement] using hclose⟩
    | endTag n =>
      cases d with
      | zero =>
        simp only [elementTextAux] at h
        injection h with h1 h2
        subst h2
        exact ⟨[Event.endTag n], by simp, by simp [closesElement]⟩
      | succ d' =>
        simp only [elementTextAux] at h
        obtain ⟨c, hc, hclose⟩ := ih d' acc t rest h
        exact ⟨Event.endTag n :: c, by simp [hc], by simpa [closesElement] using hclose⟩
    | text raw =>
      cases d with
      | zero =>
        simp only [elementTextAux] at h
        cases hu : unescapeStr raw with
        | none =>
          rw [hu] at h
          have h' : ((.error .badEntity : Except ParseErr (Option String)), es)
              = ((.ok t : Except ParseErr (Option String)), rest) := h
          simp at h'
        | some t' =>
          rw [hu] at h
          have h' : elementTextAux 0 (some (acc.getD "" ++ t')) es = (.ok t, rest) := h
          obtain ⟨c, hc, hclose⟩ := ih 0 (some (acc.getD "" ++ t')) t rest h'
          exact ⟨Event.text raw :: c, by simp [hc], by simpa [closesElement] using hclose⟩
      | succ d' =>
        simp only [elementTextAux] at h
        obtain ⟨c, hc, hclose⟩ := ih (d' + 1) acc t rest h
        exact ⟨Event.text raw :: c, by simp [hc], by simpa [closesElement] using hclose⟩

/-- Claim C1: for every `Source` entity `e` — every url string, including
the empty one, and title both present and absent — writing `e` with
`to_xml` and reading the produced fragment back with `from_xml` consumes
the whole fragment and yields an entity equal to `e`. -/
theorem from_xml_to_xml_roundtrip (s : Source) :
    Source.from_xml (attributes_of (Source.to_xml s)) (stream_of (Source.to_xml s))
      = (.ok s, []) := by
  obtain ⟨u, ti⟩ := s
  have hscan : scanUrl Source.default [RawAttr.ok "url" (escapeStr u)]
      = .ok { Source.default with url := u } := by
    simp [scanUrl, unescape_escape]
  cases ti with
  | none =>
    show Source.from_xml [RawAttr.ok "url" (escapeStr u)] [Event.endTag "source"] = _
    unfold Source.from_xml
    rw [hscan]
    rfl
  | some t =>
    show Source.from_xml [RawAttr.ok "url" (escapeStr u)]
        [Event.text (escapeStr t), Event.endTag "source"] = _
    unfold Source.from_xml
    rw [hscan, element_text_single (escapeStr t) t "source" [] (unescape_escape t)]

/-- Claim C2: for a present title, `to_xml` emits the title as the
element's text content with reserved characters escaped: the emitted raw
text contains no `<`, it decodes back to exactly the original title, and
re-reading the element body reproduces that title. -/
theorem to_xml_escapes_title (u t : String) :
    Source.to_xml { url := u, title := some t }
        = [Event.start "source" [RawAttr.ok "url" (escapeStr u)],
           Event.text (escapeStr t), Event.endTag "source"] ∧
      '<' ∉ (escapeStr t).data ∧
      unescapeStr (escapeStr t) = some t ∧
      element_text [Event.text (escapeStr t), Event.endTag "source"] = (.ok (some t), []) := by
  refine ⟨rfl, ?_, unescape_escape t, element_text_single _ _ _ _ (unescape_escape t)⟩
  exact lt_not_mem_escapeList t.data

/-- Claim C3: `from_xml` distinguishes absent from empty text — an
immediately closed element body yields `title = none`, a body holding a
single space yields `title = some " "`, and in general any present text
content that decodes maps to a present title. -/
theorem from_xml_absent_vs_empty_text :
    Source.from_xml [RawAttr.ok "url" "u"] [Event.endTag "source"]
        = (.ok { url := "u", title := none }, []) ∧
      Source.from_xml [RawAttr.ok "url" "u"] [Event.text " ", Event.endTag "source"]
        = (.ok { url := "u", title := some " " }, []) ∧
      ∀ (raw t n : String) (rest : List Event), unescapeStr raw = some t →
        element_text (Event.text raw :: Event.endTag n :: rest) = (.ok (some t), rest) := by
  refine ⟨rfl, rfl, ?_⟩
  intro raw t n rest h
  exact element_text_single raw t n rest h

/-- Witness for claim C3's general part at whitespace content. -/
theorem from_xml_absent_vs_empty_text_witness :
    element_text [Event.text " ", Event.endTag "source"] = (.ok (some " "), []) :=
  from_xml_absent_vs_empty_text.2.2 " " " " "source" [] rfl

/-- Claim C4: the attribute scan takes the first attribute named `url`
in document order, decodes its value (character and numeric entities)
and ignores everything after it; malformed or differently named
attributes before the match are skipped without aborting. -/
theorem from_xml_first_url_wins (pre post : List RawAttr) (v : String) (stream : List Event)
    (hpre : pre.all (fun a => !(isUrlOk a)) = true) :
    Source.from_xml (pre ++ RawAttr.ok "url" v :: post) stream
        = Source.from_xml [RawAttr.ok "url" v] stream ∧
      ∀ u, unescapeStr v = some u →
        scanUrl Source.default (pre ++ RawAttr.ok "url" v :: post)
          = .ok { url := u, title := none } := by
  constructor
  · unfold Source.from_xml
    rw [scanUrl_append_no_url Source.default pre (RawAttr.ok "url" v :: post) hpre]
    have hsc : scanUrl Source.default (RawAttr.ok "url" v :: post)
        = scanUrl Source.default [RawAttr.ok "url" v] := by
      simp [scanUrl]
    rw [hsc]
  · intro u hu
    rw [scanUrl_append_no_url Source.default pre (RawAttr.ok "url" v :: post) hpre]
    simp [scanUrl, hu, Source.default]

/-- Witness for claim C4: a malformed attribute and a non-target
attribute are skipped, the first `url` wins over a later duplicate, and
its value is entity-decoded (`&#38;` resolves to `&`). -/
theorem from_xml_first_url_wins_witness :
    Source.from_xml
        [RawAttr.malformed, RawAttr.ok "type" "t", RawAttr.ok "url" "a&#38;b",
         RawAttr.ok "url" "z"]
        [Event.endTag "source"]
      = Source.from_xml [RawAttr.ok "url" "a&#38;b"] [Event.endTag "source"] ∧
    scanUrl Source.default
        [RawAttr.malformed, RawAttr.ok "type" "t", RawAttr.ok "url" "a&#38;b",
         RawAttr.ok "url" "z"]
      = .ok { url := "a&b", title := none } := by
  have h := from_xml_first_url_wins [RawAttr.malformed, RawAttr.ok "type" "t"]
    [RawAttr.ok "url" "z"] "a&#38;b" [Event.endTag "source"] (by decide)
  exact ⟨h.1, h.2 "a&b" (by decide)⟩

/-- Claim C5: an attribute list with no `url` attribute is not an error —
the entity keeps the default empty url. -/
theorem from_xml_missing_url_defaults (atts : List RawAttr) (stream : List Event)
    (t : Option String) (rest : List Event)
    (hatts : atts.all (fun a => !(isUrlOk a)) = true)
    (hstream : element_text stream = (.ok t, rest)) :
    Source.from_xml atts stream = (.ok { url := "", title := t }, rest) := by
  unfold Source.from_xml
  rw [scanUrl_no_url Source.default atts hatts, hstream]
  rfl

/-- Witness for claim C5 at a concrete attribute list and stream. -/
theorem from_xml_missing_url_defaults_witness :
    Source.from_xml [RawAttr.ok "href" "x", RawAttr.malformed] [Event.endTag "source"]
      = (.ok { url := "", title := none }, []) :=
  from_xml_missing_url_defaults [RawAttr.ok "href" "x", RawAttr.malformed]
    [Event.endTag "source"] none [] (by decide) rfl

/-- Claim C6 (amended): when `from_xml` returns an entity, exactly one
full element — through its matching end tag, including all descendants —
has been consumed and the cursor rests just past that end tag. -/
theorem from_xml_success_consumes_one_element (atts : List RawAttr) (stream : List Event)
    (s : Source) (rest : List Event)
    (h : Source.from_xml atts stream = (.ok s, rest)) :
    ∃ c, stream = c ++ rest ∧ closesElement c 0 = true := by
  unfold Source.from_xml at h
  cases hscan : scanUrl Source.default atts with
  | error e =>
    rw [hscan] at h
    simp at h
  | ok s0 =>
    rw [hscan] at h
    rcases het : element_text stream with ⟨r, rst⟩
    rw [het] at h
    cases r with
    | error e => simp at h
    | ok t =>
      have h' : ((.ok { s0 with title := t } : Except ParseErr Source), rst)
          = ((.ok s : Except ParseErr Source), rest) := h
      injection h' with h1 h2
      obtain ⟨c, hc, hclose⟩ := elementTextAux_consumes stream 0 none t rst het
      exact ⟨c, by rw [hc, h2], hclose⟩

/-- Witness for claim C6's amended statement at a concrete stream. -/
theorem from_xml_success_consumes_one_element_witness :
    ∃ c, [Event.text "a", Event.endTag "s", Event.text "z"] = c ++ [Event.text "z"] ∧
      closesElement c 0 = true :=
  from_xml_success_consumes_one_element [] [Event.text "a", Event.endTag "s", Event.text "z"]
    { url := "", title := some "a" } [Event.text "z"] rfl

/-- Counterexample to claim C6 as stated: on a stream that ends
mid-element, `from_xml` returns an error and no prefix of the input is a
full element, so the call cannot have consumed one full element. -/
theorem from_xml_consumption_counterexample :
    Source.from_xml [] [Event.text "t"] = (.error .unexpectedEof, []) ∧
      ¬ ∃ c rest, [Event.text "t"] = c ++ rest ∧ closesElement c 0 = true := by
  refine ⟨rfl, ?_⟩
  rintro ⟨c, rest, heq, hc⟩
  cases c with
  | nil => simp [closesElement] at hc
  | cons e c' =>
    rw [List.cons_append] at heq
    injection heq with h1 h2
    subst h1
    obtain ⟨rfl, rfl⟩ := List.append_eq_nil.mp h2.symm
    simp [closesElement] at hc

/-- Claim C7: when the attribute phase succeeds and the drain to the
matching end tag hits a structural-parse error, `from_xml` returns that
error unchanged and no entity. -/
theorem from_xml_propagates_parse_error (atts : List RawAttr) (s0 : Source)
    (stream : List Event) (e : ParseErr) (rest : List Event)
    (hatts : scanUrl Source.default atts = .ok s0)
    (hstream : element_text stream = (.error e, rest)) :
    Source.from_xml atts stream = (.error e, rest) := by
  unfold Source.from_xml
  rw [hatts, hstream]

/-- Witness for claim C7: the element body is never closed (the stream
ends mid-element), and the extractor's error comes back unchanged. -/
theorem from_xml_propagates_parse_error_witness :
    Source.from_xml [RawAttr.ok "url" "u"] [Event.text "t"]
      = (.error .unexpectedEof, []) :=
  from_xml_propagates_parse_error [RawAttr.ok "url" "u"] { url := "u", title := none }
    [Event.text "t"] .unexpectedEof [] rfl rfl

/-- Claim C8: `to_xml` always uses the literal tag name `source`, writes
the url as a `url` attribute on the start tag, produces exactly
`<source url="http://example.com">Example</source>` for that entity, and
with an absent title emits an explicit start/end pair with an empty body,
never a self-closed tag. -/
theorem to_xml_wire_format :
    render (Source.to_xml { url := "http://example.com", title := some "Example" })
        = "<source url=\"http://example.com\">Example</source>" ∧
      (∀ s : Source, ∃ body, Source.to_xml s
          = Event.start "source" [RawAttr.ok "url" (escapeStr s.url)]
              :: body ++ [Event.endTag "source"]) ∧
      ∀ u : String, render (Source.to_xml { url := u, title := none })
          = "<source url=\"" ++ escapeStr u ++ "\"></source>" := by
  refine ⟨rfl, ?_, ?_⟩
  · intro s
    cases hs : s.title with
    | none => exact ⟨[], by simp [Source.to_xml, hs]⟩
    | some t => exact ⟨[Event.text (escapeStr t)], by simp [Source.to_xml, hs]⟩
  · intro u
    apply String.ext
    simp [render, Source.to_xml, renderEvent, renderAttrs, String.data_append]

/-- Claim C9: the result of `from_xml` depends only on the first
well-formed `url` attribute and the stream — two attribute lists that
agree there are indistinguishable. -/
theorem from_xml_depends_only_on_first_url (atts1 atts2 : List RawAttr)
    (stream : List Event)
    (h : firstUrlRaw atts1 = firstUrlRaw atts2) :
    Source.from_xml atts1 stream = Source.from_xml atts2 stream := by
  unfold Source.from_xml
  rw [scanUrl_eq_firstUrlRaw Source.default atts1, scanUrl_eq_firstUrlRaw Source.default atts2, h]

/-- Witness for claim C9: adding a malformed attribute, an unrelated
attribute and a duplicate `url` does not change the result. -/
theorem from_xml_depends_only_on_first_url_witness :
    Source.from_xml [RawAttr.ok "url" "a"] [Event.endTag "source"]
      = Source.from_xml
          [RawAttr.malformed, RawAttr.ok "x" "y", RawAttr.ok "url" "a", RawAttr.ok "url" "b"]
          [Event.endTag "source"] :=
  from_xml_depends_only_on_first_url [RawAttr.ok "url" "a"]
    [RawAttr.malformed, RawAttr.ok "x" "y", RawAttr.ok "url" "a", RawAttr.ok "url" "b"]
    [Event.endTag "source"] rfl

/-- Claim C10: `set_title` stores any optional string, so `none` resets a
present title; `set_url` always stores a present string; neither setter
touches the other field. -/
theorem set_title_set_url_behavior (s : Source) (t : Option String) (u : String) :
    (s.set_title t).title = t ∧ (s.set_title t).url = s.url ∧
      (s.set_url u).url = u ∧ (s.set_url u).title = s.title ∧
      (s.set_title none).title = none :=
  ⟨rfl, rfl, rfl, rfl, rfl⟩

end Rss
